import Mathlib

/-!
Verification development for the cooldown-tracking engine
(`src/Parser/Core/Modules/CooldownUsable.js` of WoWAnalyzer).

The engine is shallowly embedded: the JS object `_currentCooldowns` becomes an
association list with unique keys (a JS object cannot hold duplicate keys),
the ambient owner/clock becomes an explicit `currentTimestamp` field, the
`triggerEvent` publish channel becomes an appended `published` list, and the
`console.warn` / `console.error` diagnostics become an appended `diags` list.
JS numbers are modelled as `Int` (all arithmetic in the module is integer
millisecond arithmetic); the JS falsy test `!expectedCooldownDuration` on a
duration that is `undefined` or `0` is modelled by representing "no duration"
as `0`, which the `||` fallback and the `!` test treat identically.
Methods that `throw` are embedded in `Except String`.
-/

/-- One live cooldown record, exactly the object literal created in
`startCooldown`: `{ start, expectedEnd, charges }`. -/
structure CooldownRecord where
  start : Int
  expectedEnd : Int
  charges : Int
deriving DecidableEq

/-- The four signals published through `this.owner.triggerEvent`. -/
inductive Notification where
  | startcooldown (id : Nat)
  | startcooldowncharge (id : Nat)
  | refreshcooldown (id : Nat)
  | finishcooldown (id : Nat)
deriving DecidableEq

/-- Console diagnostics surfaced by the module: `console.warn` when a spell
has no cooldown, `console.error` on the desynchronization recovery path. -/
inductive Diag where
  | warnNoCooldown (id : Nat)
  | errorDesync (id : Nat)
deriving DecidableEq

/-- The external `CastEfficiency` collaborator (its lookups are the only part
the engine uses). A duration of `0` encodes "no cooldown configured"
(JS `undefined` and `0` are both falsy in every use the module makes). -/
structure Config where
  getMaxCharges : Nat → Int
  getExpectedCooldownDuration : Nat → Int

/-- First-binding lookup in the store, i.e. `this._currentCooldowns[spellId]`. -/
def storeFind : List (Nat × CooldownRecord) → Nat → Option CooldownRecord
  | [], _ => none
  | p :: rest, id => if p.1 = id then some p.2 else storeFind rest id

/-- Assignment `this._currentCooldowns[spellId] = record`: replaces the
binding when the key is present, appends it otherwise. -/
def storeSet : List (Nat × CooldownRecord) → Nat → CooldownRecord → List (Nat × CooldownRecord)
  | [], id, r => [(id, r)]
  | p :: rest, id, r => if p.1 = id then (id, r) :: rest else p :: storeSet rest id r

/-- In-place field mutation of an existing record
(`this._currentCooldowns[spellId].field = ...`). -/
def storeModify : List (Nat × CooldownRecord) → Nat → (CooldownRecord → CooldownRecord) → List (Nat × CooldownRecord)
  | [], _, _ => []
  | p :: rest, id, f => if p.1 = id then (p.1, f p.2) :: rest else p :: storeModify rest id f

/-- Key removal `delete this._currentCooldowns[spellId]`. -/
def storeErase : List (Nat × CooldownRecord) → Nat → List (Nat × CooldownRecord)
  | [], _ => []
  | p :: rest, id => if p.1 = id then storeErase rest id else p :: storeErase rest id

/-- The key list `Object.keys(this._currentCooldowns)`. -/
def storeKeys (st : List (Nat × CooldownRecord)) : List Nat :=
  st.map Prod.fst

@[simp] theorem storeKeys_nil : storeKeys [] = [] := rfl

@[simp] theorem storeKeys_cons (p : Nat × CooldownRecord) (rest : List (Nat × CooldownRecord)) :
    storeKeys (p :: rest) = p.1 :: storeKeys rest := rfl

theorem storeFind_storeSet_self (st : List (Nat × CooldownRecord)) (id : Nat) (r : CooldownRecord) :
    storeFind (storeSet st id r) id = some r := by
  induction st with
  | nil => simp [storeSet, storeFind]
  | cons p rest ih =>
    by_cases h : p.1 = id <;> simp [storeSet, storeFind, h, ih]

theorem storeFind_storeSet_ne (st : List (Nat × CooldownRecord)) (id j : Nat) (r : CooldownRecord)
    (h : j ≠ id) : storeFind (storeSet st id r) j = storeFind st j := by
  induction st with
  | nil => simp [storeSet, storeFind, Ne.symm h]
  | cons p rest ih =>
    by_cases hp : p.1 = id
    · simp [storeSet, storeFind, hp, h, Ne.symm h]
    · by_cases hj : p.1 = j <;> simp [storeSet, storeFind, hp, hj, h, ih]

theorem storeFind_storeErase_self (st : List (Nat × CooldownRecord)) (id : Nat) :
    storeFind (storeErase st id) id = none := by
  induction st with
  | nil => simp [storeErase, storeFind]
  | cons p rest ih =>
    by_cases h : p.1 = id <;> simp [storeErase, storeFind, h, ih]

theorem storeFind_storeErase_ne (st : List (Nat × CooldownRecord)) (id j : Nat)
    (h : j ≠ id) : storeFind (storeErase st id) j = storeFind st j := by
  induction st with
  | nil => simp [storeErase, storeFind]
  | cons p rest ih =>
    by_cases hp : p.1 = id
    · have : p.1 ≠ j := by rw [hp]; exact Ne.symm h
      simp [storeErase, storeFind, hp, this, h, Ne.symm h, ih]
    · by_cases hj : p.1 = j <;> simp [storeErase, storeFind, hp, hj, h, ih]

theorem storeFind_storeModify_self (st : List (Nat × CooldownRecord)) (id : Nat)
    (f : CooldownRecord → CooldownRecord) (r : CooldownRecord) (h : storeFind st id = some r) :
    storeFind (storeModify st id f) id = some (f r) := by
  induction st with
  | nil => simp [storeFind] at h
  | cons p rest ih =>
    by_cases hp : p.1 = id
    · simp [storeFind, hp] at h
      simp [storeModify, storeFind, hp, h]
    · simp [storeFind, hp] at h
      simp [storeModify, storeFind, hp, ih h]

theorem storeFind_storeModify_ne (st : List (Nat × CooldownRecord)) (id j : Nat)
    (f : CooldownRecord → CooldownRecord) (h : j ≠ id) :
    storeFind (storeModify st id f) j = storeFind st j := by
  induction st with
  | nil => simp [storeModify]
  | cons p rest ih =>
    by_cases hp : p.1 = id
    · have : p.1 ≠ j := by rw [hp]; exact Ne.symm h
      simp [storeModify, storeFind, hp, this, h, Ne.symm h]
    · by_cases hj : p.1 = j <;> simp [storeModify, storeFind, hp, hj, h, ih]

theorem storeKeys_storeModify (st : List (Nat × CooldownRecord)) (id : Nat)
    (f : CooldownRecord → CooldownRecord) : storeKeys (storeModify st id f) = storeKeys st := by
  induction st with
  | nil => simp [storeModify]
  | cons p rest ih =>
    by_cases hp : p.1 = id
    · simp [storeModify, hp]
    · simp [storeModify, hp, ih]

theorem storeFind_eq_none_iff (st : List (Nat × CooldownRecord)) (id : Nat) :
    storeFind st id = none ↔ id ∉ storeKeys st := by
  induction st with
  | nil => simp [storeFind]
  | cons p rest ih =>
    by_cases hp : p.1 = id
    · simp [storeFind, hp]
    · rw [storeFind, if_neg hp, ih]
      simp only [storeKeys_cons, List.mem_cons, not_or]
      constructor
      · intro h; exact ⟨fun he => hp he.symm, h⟩
      · intro h; exact h.2

theorem storeKeys_storeSet_of_mem (st : List (Nat × CooldownRecord)) (id : Nat) (r : CooldownRecord)
    (h : id ∈ storeKeys st) : storeKeys (storeSet st id r) = storeKeys st := by
  induction st with
  | nil => simp at h
  | cons p rest ih =>
    by_cases hp : p.1 = id
    · simp [storeSet, hp]
    · have hmem : id ∈ storeKeys rest := by
        rcases List.mem_cons.mp (by simpa using h) with h1 | h1
        · exact absurd h1.symm hp
        · exact h1
      simp [storeSet, hp, ih hmem]

theorem storeKeys_storeSet_of_not_mem (st : List (Nat × CooldownRecord)) (id : Nat) (r : CooldownRecord)
    (h : id ∉ storeKeys st) : storeKeys (storeSet st id r) = storeKeys st ++ [id] := by
  induction st with
  | nil => simp [storeSet]
  | cons p rest ih =>
    have h' : ¬(id = p.1 ∨ id ∈ storeKeys rest) := by simpa [List.mem_cons] using h
    push_neg at h'
    have hp : p.1 ≠ id := fun hh => h'.1 hh.symm
    simp [storeSet, hp, ih h'.2]

theorem storeKeys_storeErase_sublist (st : List (Nat × CooldownRecord)) (id : Nat) :
    (storeKeys (storeErase st id)).Sublist (storeKeys st) := by
  induction st with
  | nil => simp [storeErase]
  | cons p rest ih =>
    by_cases hp : p.1 = id
    · rw [storeErase, if_pos hp, storeKeys_cons]
      exact ih.trans (List.sublist_cons_self _ _)
    · rw [storeErase, if_neg hp, storeKeys_cons, storeKeys_cons]
      exact ih.cons₂ _

theorem nodup_storeSet (st : List (Nat × CooldownRecord)) (id : Nat) (r : CooldownRecord)
    (h : (storeKeys st).Nodup) : (storeKeys (storeSet st id r)).Nodup := by
  by_cases hm : id ∈ storeKeys st
  · rw [storeKeys_storeSet_of_mem st id r hm]; exact h
  · rw [storeKeys_storeSet_of_not_mem st id r hm]
    simp [List.nodup_append, h, hm]

theorem nodup_storeErase (st : List (Nat × CooldownRecord)) (id : Nat)
    (h : (storeKeys st).Nodup) : (storeKeys (storeErase st id)).Nodup :=
  (storeKeys_storeErase_sublist st id).nodup h

theorem nodup_storeModify (st : List (Nat × CooldownRecord)) (id : Nat)
    (f : CooldownRecord → CooldownRecord) (h : (storeKeys st).Nodup) :
    (storeKeys (storeModify st id f)).Nodup := by
  rw [storeKeys_storeModify]; exact h

/-- The mutable state of the engine together with its ambient collaborators:
`currentCooldowns` is `this._currentCooldowns`, `currentTimestamp` is
`this.owner.currentTimestamp` (set by the replay driver), `published` collects
the `triggerEvent` notifications in order, `diags` the console diagnostics. -/
structure EngineState where
  currentCooldowns : List (Nat × CooldownRecord)
  currentTimestamp : Int
  published : List Notification
  diags : List Diag
deriving DecidableEq

/-- Publish a signal through `this.owner.triggerEvent`. -/
def pushNotif (s : EngineState) (n : Notification) : EngineState :=
  { s with published := s.published ++ [n] }

/-- Surface a console diagnostic (`console.warn` / `console.error`). -/
def pushDiag (s : EngineState) (d : Diag) : EngineState :=
  { s with diags := s.diags ++ [d] }

@[simp] theorem pushNotif_currentCooldowns (s : EngineState) (n : Notification) :
    (pushNotif s n).currentCooldowns = s.currentCooldowns := rfl

@[simp] theorem pushNotif_currentTimestamp (s : EngineState) (n : Notification) :
    (pushNotif s n).currentTimestamp = s.currentTimestamp := rfl

@[simp] theorem pushNotif_diags (s : EngineState) (n : Notification) :
    (pushNotif s n).diags = s.diags := rfl

@[simp] theorem pushNotif_published (s : EngineState) (n : Notification) :
    (pushNotif s n).published = s.published ++ [n] := rfl

@[simp] theorem pushDiag_currentCooldowns (s : EngineState) (d : Diag) :
    (pushDiag s d).currentCooldowns = s.currentCooldowns := rfl

@[simp] theorem pushDiag_currentTimestamp (s : EngineState) (d : Diag) :
    (pushDiag s d).currentTimestamp = s.currentTimestamp := rfl

@[simp] theorem pushDiag_published (s : EngineState) (d : Diag) :
    (pushDiag s d).published = s.published := rfl

@[simp] theorem pushDiag_diags (s : EngineState) (d : Diag) :
    (pushDiag s d).diags = s.diags ++ [d] := rfl

/-- Method `isOnCooldown(spellId)`: `!!this._currentCooldowns[spellId]`. -/
def isOnCooldown (s : EngineState) (id : Nat) : Bool :=
  (storeFind s.currentCooldowns id).isSome

/-- Method `isAvailable(spellId)`: when a record exists the spell is available iff
`getMaxCharges(spellId) > record.charges`, otherwise it is available.
The source guards the record access with `isOnCooldown`, which is exactly
the presence of the binding matched on here. -/
def isAvailable (cfg : Config) (s : EngineState) (id : Nat) : Bool :=
  match storeFind s.currentCooldowns id with
  | some r => if cfg.getMaxCharges id > r.charges then true else false
  | none => true

/-- Method `cooldownRemaining(spellId)`: `null` when not on cooldown, otherwise
`record.expectedEnd - this.owner.currentTimestamp`. -/
def cooldownRemaining (s : EngineState) (id : Nat) : Option Int :=
  match storeFind s.currentCooldowns id with
  | none => none
  | some r => some (r.expectedEnd - s.currentTimestamp)

/-- The JS expression `overrideDurationMs || catalogDuration`: a `null`
(absent) or `0` override falls back to the catalog value. -/
def effectiveDuration (overrideDurationMs : Option Int) (catalogDuration : Int) : Int :=
  match overrideDurationMs with
  | some d => if d = 0 then catalogDuration else d
  | none => catalogDuration

/-- Method `refreshCooldown(spellId, overrideDurationMs)`: throws when not on
cooldown; a non-resolving duration is a warn-only no-op; otherwise
`expectedEnd` is re-armed to `now + duration` and `refreshcooldown` fires. -/
def refreshCooldown (cfg : Config) (s : EngineState) (id : Nat) (overrideDurationMs : Option Int) :
    Except String EngineState :=
  match storeFind s.currentCooldowns id with
  | none => .error (s!"Tried to refresh the cooldown of {id}, but it is not on cooldown.")
  | some _ =>
    let dur := effectiveDuration overrideDurationMs (cfg.getExpectedCooldownDuration id)
    if dur = 0 then
      .ok (pushDiag s (.warnNoCooldown id))
    else
      let rearmed := storeModify s.currentCooldowns id
        (fun r => { r with expectedEnd := s.currentTimestamp + dur })
      .ok (pushNotif { s with currentCooldowns := rearmed } (.refreshcooldown id))

/-- Method `finishCooldown(spellId, resetAllCharges)`: throws when not on cooldown;
deletes the record when `charges === 1` or all charges are reset, otherwise
decrements `charges` and re-arms the next charge through `refreshCooldown`;
fires `finishcooldown` in all non-throwing cases. -/
def finishCooldown (cfg : Config) (s : EngineState) (id : Nat) (resetAllCharges : Bool) :
    Except String EngineState :=
  match storeFind s.currentCooldowns id with
  | none => .error (s!"Tried to finish the cooldown of {id}, but it is not on cooldown.")
  | some r =>
    if r.charges = 1 ∨ resetAllCharges = true then
      .ok (pushNotif { s with currentCooldowns := storeErase s.currentCooldowns id }
        (.finishcooldown id))
    else
      let decremented := storeSet s.currentCooldowns id { r with charges := r.charges - 1 }
      match refreshCooldown cfg { s with currentCooldowns := decremented } id none with
      | .error e => .error e
      | .ok s2 => .ok (pushNotif s2 (.finishcooldown id))

theorem storeFind_mem (st : List (Nat × CooldownRecord)) (id : Nat) (r : CooldownRecord)
    (h : storeFind st id = some r) : id ∈ storeKeys st := by
  by_contra hmem
  rw [(storeFind_eq_none_iff st id).mpr hmem] at h
  exact Option.noConfusion h

/-- The record left by a successful `refreshCooldown`: unchanged when no
duration resolves, otherwise with `expectedEnd` re-armed to `now + duration`. -/
def refreshedRecord (cfg : Config) (now : Int) (id : Nat) (ov : Option Int)
    (r : CooldownRecord) : CooldownRecord :=
  if effectiveDuration ov (cfg.getExpectedCooldownDuration id) = 0 then r
  else { r with expectedEnd := now + effectiveDuration ov (cfg.getExpectedCooldownDuration id) }

/-- What one `refreshCooldown` call does to a record that is present. -/
theorem refreshCooldown_ok (cfg : Config) (s : EngineState) (id : Nat) (ov : Option Int)
    (r : CooldownRecord) (h : storeFind s.currentCooldowns id = some r) :
    ∃ s2, refreshCooldown cfg s id ov = .ok s2 ∧
      s2.currentTimestamp = s.currentTimestamp ∧
      storeKeys s2.currentCooldowns = storeKeys s.currentCooldowns ∧
      (∀ j, j ≠ id → storeFind s2.currentCooldowns j = storeFind s.currentCooldowns j) ∧
      storeFind s2.currentCooldowns id = some (refreshedRecord cfg s.currentTimestamp id ov r) ∧
      s2.diags = s.diags ++
        (if effectiveDuration ov (cfg.getExpectedCooldownDuration id) = 0
         then [Diag.warnNoCooldown id] else []) := by
  by_cases hdur : effectiveDuration ov (cfg.getExpectedCooldownDuration id) = 0
  · refine ⟨pushDiag s (.warnNoCooldown id), ?_, rfl, rfl, fun j _ => rfl, ?_, ?_⟩
    · simp only [refreshCooldown, h]
      simp [hdur]
    · simpa [refreshedRecord, hdur] using h
    · simp [hdur]
  · refine ⟨pushNotif { s with currentCooldowns := storeModify s.currentCooldowns id (fun r0 => { r0 with expectedEnd := s.currentTimestamp + effectiveDuration ov (cfg.getExpectedCooldownDuration id) }) } (.refreshcooldown id), ?_, rfl, ?_, ?_, ?_, ?_⟩
    · simp only [refreshCooldown, h]
      simp [hdur]
    · simp [storeKeys_storeModify]
    · intro j hj
      simpa using storeFind_storeModify_ne s.currentCooldowns id j _ hj
    · have := storeFind_storeModify_self s.currentCooldowns id (fun r0 => { r0 with expectedEnd := s.currentTimestamp + effectiveDuration ov (cfg.getExpectedCooldownDuration id) }) r h
      simpa [refreshedRecord, hdur] using this
    · simp [hdur]

/-- The record (or its absence) left at `spellId` by one `finishCooldown`
call: deleted when on the last charge or when resetting all charges,
otherwise one charge fewer with the timer re-armed from the catalog. -/
def finishedRecord (cfg : Config) (now : Int) (id : Nat) (r : CooldownRecord)
    (resetAllCharges : Bool) : Option CooldownRecord :=
  if r.charges = 1 ∨ resetAllCharges = true then none
  else some (refreshedRecord cfg now id none { r with charges := r.charges - 1 })

/-- What one `finishCooldown` call does when the record is present: it
succeeds, touches no other ability, and leaves `finishedRecord` at `spellId`. -/
theorem finishCooldown_ok (cfg : Config) (s : EngineState) (id : Nat) (r : CooldownRecord)
    (b : Bool) (h : storeFind s.currentCooldowns id = some r) :
    ∃ s2, finishCooldown cfg s id b = .ok s2 ∧
      s2.currentTimestamp = s.currentTimestamp ∧
      (∀ j, j ≠ id → storeFind s2.currentCooldowns j = storeFind s.currentCooldowns j) ∧
      storeFind s2.currentCooldowns id = finishedRecord cfg s.currentTimestamp id r b ∧
      ((storeKeys s.currentCooldowns).Nodup → (storeKeys s2.currentCooldowns).Nodup) ∧
      s2.diags = s.diags ++
        (if r.charges = 1 ∨ b = true then []
         else if cfg.getExpectedCooldownDuration id = 0 then [Diag.warnNoCooldown id] else []) := by
  by_cases hlast : r.charges = 1 ∨ b = true
  · refine ⟨pushNotif { s with currentCooldowns := storeErase s.currentCooldowns id } (.finishcooldown id), ?_, rfl, ?_, ?_, ?_, ?_⟩
    · simp only [finishCooldown, h]
      simp [hlast]
    · intro j hj
      simpa using storeFind_storeErase_ne s.currentCooldowns id j hj
    · simp [finishedRecord, hlast, storeFind_storeErase_self]
    · intro hnd
      simpa using nodup_storeErase s.currentCooldowns id hnd
    · simp [hlast]
  · obtain ⟨s2, hok, hts, hkeys, hne, hid, hdiags⟩ :=
      refreshCooldown_ok cfg { s with currentCooldowns := storeSet s.currentCooldowns id { r with charges := r.charges - 1 } } id none _ (storeFind_storeSet_self s.currentCooldowns id { r with charges := r.charges - 1 })
    refine ⟨pushNotif s2 (.finishcooldown id), ?_, by simpa using hts, ?_, ?_, ?_, ?_⟩
    · simp only [finishCooldown, h]
      rw [if_neg hlast]
      simp only [hok]
    · intro j hj
      have h1 := hne j hj
      have h2 := storeFind_storeSet_ne s.currentCooldowns id j { r with charges := r.charges - 1 } hj
      simp only [pushNotif_currentCooldowns]
      rw [h1]
      simpa using h2
    · simp only [pushNotif_currentCooldowns, hid, finishedRecord, if_neg hlast]
    · intro hnd
      have hmem : id ∈ storeKeys s.currentCooldowns := storeFind_mem _ _ _ h
      have hks : storeKeys (storeSet s.currentCooldowns id { r with charges := r.charges - 1 }) = storeKeys s.currentCooldowns := storeKeys_storeSet_of_mem _ _ _ hmem
      simp only [pushNotif_currentCooldowns]
      rw [hkeys]
      simpa [hks] using hnd
    · simp only [pushNotif_diags, hdiags]
      simp [if_neg hlast, effectiveDuration]

/-- Termination measure for the desynchronization-recovery recursion in
`startCooldown`: on that path the tracked charge count strictly exceeds or
equals the configured maximum and each retry first finishes one charge. -/
def chargeMeasure (cfg : Config) (s : EngineState) (id : Nat) : Nat :=
  match storeFind s.currentCooldowns id with
  | none => 0
  | some r => (r.charges - cfg.getMaxCharges id + 2).toNat

theorem chargeMeasure_lt_of_finish (cfg : Config) (s : EngineState) (id : Nat)
    (r : CooldownRecord) (b : Bool) (s2 : EngineState)
    (h : storeFind s.currentCooldowns id = some r)
    (hsat : cfg.getMaxCharges id ≤ r.charges)
    (hfin : finishCooldown cfg s id b = .ok s2) :
    chargeMeasure cfg s2 id < chargeMeasure cfg s id := by
  obtain ⟨s2x, hok, _, _, hid, _, _⟩ := finishCooldown_ok cfg s id r b h
  rw [hok] at hfin
  injection hfin with he
  subst he
  rw [chargeMeasure, chargeMeasure, h, hid, finishedRecord]
  by_cases hlast : r.charges = 1 ∨ b = true
  · rw [if_pos hlast]
    simp only
    omega
  · rw [if_neg hlast]
    simp only [refreshedRecord]
    push_neg at hlast
    by_cases hcat : effectiveDuration none (cfg.getExpectedCooldownDuration id) = 0
    · rw [if_pos hcat]
      simp only
      omega
    · rw [if_neg hcat]
      simp only
      omega

/-- Method `startCooldown(spellId, overrideDurationMs)`. The branch structure is the
source's: resolve the duration (no-op with a warn when none resolves); when
not on cooldown create a fresh one-charge record and fire `startcooldown`;
when a charge is available increment `charges` and fire `startcooldowncharge`;
otherwise surface the desynchronization `console.error`, force-finish one
charge via `finishCooldown`, and retry with the same arguments. -/
def startCooldown (cfg : Config) (s : EngineState) (id : Nat) (overrideDurationMs : Option Int) :
    Except String EngineState :=
  let dur := effectiveDuration overrideDurationMs (cfg.getExpectedCooldownDuration id)
  if _hdur : dur = 0 then
    .ok (pushDiag s (.warnNoCooldown id))
  else if _hon : isOnCooldown s id = false then
    let fresh : CooldownRecord := { start := s.currentTimestamp, expectedEnd := s.currentTimestamp + dur, charges := 1 }
    .ok (pushNotif { s with currentCooldowns := storeSet s.currentCooldowns id fresh } (.startcooldown id))
  else if _hav : isAvailable cfg s id = true then
    .ok (pushNotif { s with currentCooldowns := storeModify s.currentCooldowns id (fun r => { r with charges := r.charges + 1 }) } (.startcooldowncharge id))
  else
    match _hfin : finishCooldown cfg (pushDiag s (.errorDesync id)) id false with
    | .error e => .error e
    | .ok s2 => startCooldown cfg s2 id overrideDurationMs
termination_by chargeMeasure cfg s id
decreasing_by
  have hr : ∃ r, storeFind s.currentCooldowns id = some r := by
    rcases hh : storeFind s.currentCooldowns id with _ | r
    · exact absurd (by simp [isOnCooldown, hh]) _hon
    · exact ⟨r, rfl⟩
  obtain ⟨r, hr⟩ := hr
  have hsat : cfg.getMaxCharges id ≤ r.charges := by
    by_contra hlt
    push_neg at hlt
    exact _hav (by simp [isAvailable, hr, hlt])
  exact chargeMeasure_lt_of_finish cfg (pushDiag s (Diag.errorDesync id)) id r false s2 hr hsat _hfin

/-- Modelled from the spec (section 4.1, step 4 as C1 reads it): identical to
`startCooldown` except that the recovery path force-finishes the existing
cooldown ENTIRELY — the record is removed (`finishCooldown` with all charges
reset) — before retrying with the same arguments. The source instead calls
`finishCooldown(spellId)` without `resetAllCharges`, which on a multi-charge
record only finishes one charge; this definition exists to witness that
difference. -/
def startCooldownSpecC1 (cfg : Config) (s : EngineState) (id : Nat) (overrideDurationMs : Option Int) :
    Except String EngineState :=
  let dur := effectiveDuration overrideDurationMs (cfg.getExpectedCooldownDuration id)
  if _hdur : dur = 0 then
    .ok (pushDiag s (.warnNoCooldown id))
  else if _hon : isOnCooldown s id = false then
    let fresh : CooldownRecord := { start := s.currentTimestamp, expectedEnd := s.currentTimestamp + dur, charges := 1 }
    .ok (pushNotif { s with currentCooldowns := storeSet s.currentCooldowns id fresh } (.startcooldown id))
  else if _hav : isAvailable cfg s id = true then
    .ok (pushNotif { s with currentCooldowns := storeModify s.currentCooldowns id (fun r => { r with charges := r.charges + 1 }) } (.startcooldowncharge id))
  else
    match _hfin : finishCooldown cfg (pushDiag s (.errorDesync id)) id true with
    | .error e => .error e
    | .ok s2 => startCooldownSpecC1 cfg s2 id overrideDurationMs
termination_by chargeMeasure cfg s id
decreasing_by
  have hr : ∃ r, storeFind s.currentCooldowns id = some r := by
    rcases hh : storeFind s.currentCooldowns id with _ | r
    · exact absurd (by simp [isOnCooldown, hh]) _hon
    · exact ⟨r, rfl⟩
  obtain ⟨r, hr⟩ := hr
  have hsat : cfg.getMaxCharges id ≤ r.charges := by
    by_contra hlt
    push_neg at hlt
    exact _hav (by simp [isAvailable, hr, hlt])
  exact chargeMeasure_lt_of_finish cfg (pushDiag s (Diag.errorDesync id)) id r true s2 hr hsat _hfin

/-- Branch equation: no resolving duration makes `startCooldown` a warn-only
no-op. -/
theorem startCooldown_noop (cfg : Config) (s : EngineState) (id : Nat) (ov : Option Int)
    (hdur : effectiveDuration ov (cfg.getExpectedCooldownDuration id) = 0) :
    startCooldown cfg s id ov = .ok (pushDiag s (.warnNoCooldown id)) := by
  rw [startCooldown]
  simp [hdur]

/-- Branch equation: not on cooldown and a duration resolves, so a fresh
one-charge record is created and `startcooldown` fires. -/
theorem startCooldown_create (cfg : Config) (s : EngineState) (id : Nat) (ov : Option Int)
    (hdur : effectiveDuration ov (cfg.getExpectedCooldownDuration id) ≠ 0)
    (hoff : storeFind s.currentCooldowns id = none) :
    startCooldown cfg s id ov = .ok (pushNotif { s with currentCooldowns := storeSet s.currentCooldowns id { start := s.currentTimestamp, expectedEnd := s.currentTimestamp + effectiveDuration ov (cfg.getExpectedCooldownDuration id), charges := 1 } } (.startcooldown id)) := by
  rw [startCooldown]
  simp [hdur, isOnCooldown, hoff]

/-- Branch equation: on cooldown with a charge still available, so `charges`
is incremented and `startcooldowncharge` fires. -/
theorem startCooldown_charge (cfg : Config) (s : EngineState) (id : Nat) (ov : Option Int)
    (r : CooldownRecord)
    (hdur : effectiveDuration ov (cfg.getExpectedCooldownDuration id) ≠ 0)
    (hr : storeFind s.currentCooldowns id = some r)
    (hav : cfg.getMaxCharges id > r.charges) :
    startCooldown cfg s id ov = .ok (pushNotif { s with currentCooldowns := storeModify s.currentCooldowns id (fun r0 => { r0 with charges := r0.charges + 1 }) } (.startcooldowncharge id)) := by
  rw [startCooldown]
  simp [hdur, isOnCooldown, isAvailable, hr, hav]

/-- Branch equation: on cooldown and saturated, so the recovery path runs —
`console.error`, one-charge `finishCooldown`, retry with the same arguments. -/
theorem startCooldown_recover (cfg : Config) (s : EngineState) (id : Nat) (ov : Option Int)
    (r : CooldownRecord) (s2 : EngineState)
    (hdur : effectiveDuration ov (cfg.getExpectedCooldownDuration id) ≠ 0)
    (hr : storeFind s.currentCooldowns id = some r)
    (hsat : ¬(cfg.getMaxCharges id > r.charges))
    (hfin : finishCooldown cfg (pushDiag s (.errorDesync id)) id false = .ok s2) :
    startCooldown cfg s id ov = startCooldown cfg s2 id ov := by
  rw [startCooldown]
  have hon : isOnCooldown s id = true := by simp [isOnCooldown, hr]
  have hav : isAvailable cfg s id = false := by simp [isAvailable, hr, hsat]
  simp only [hdur, hon, hav, dite_false, dite_true, Bool.true_eq_false, Bool.false_eq_true, if_neg, dif_neg]
  split
  · rename_i e heq
    rw [heq] at hfin
    exact absurd hfin (by simp)
  · rename_i s3 heq
    rw [heq] at hfin
    injection hfin with he
    rw [he]

/-- Method `reduceCooldown(spellId, durationMs)`: `null` when not on cooldown; when
the remaining time is smaller than the reduction the cooldown finishes via
`finishCooldown` and the remaining time is returned; otherwise `expectedEnd`
is pulled back by `durationMs` and `durationMs` is returned. The `let rem`
is the inlined value of `this.cooldownRemaining(spellId)`, which the guard
has just established to be non-`null`. -/
def reduceCooldown (cfg : Config) (s : EngineState) (id : Nat) (durationMs : Int) :
    Except String (EngineState × Option Int) :=
  match storeFind s.currentCooldowns id with
  | none => .ok (s, none)
  | some r =>
    let rem := r.expectedEnd - s.currentTimestamp
    if rem < durationMs then
      match finishCooldown cfg s id false with
      | .error e => .error e
      | .ok s2 => .ok (s2, some rem)
    else
      .ok ({ s with currentCooldowns := storeModify s.currentCooldowns id (fun r0 => { r0 with expectedEnd := r0.expectedEnd - durationMs }) }, some durationMs)

/-- A generic replay event; the sweep only reads its `timestamp`. -/
structure Event where
  timestamp : Int
deriving DecidableEq

/-- The `ability` payload of a cast event; the engine only reads `guid`. -/
structure AbilityRef where
  guid : Nat
deriving DecidableEq

/-- A cast event as consumed by `on_byPlayer_cast`. -/
structure CastEvent where
  ability : AbilityRef
deriving DecidableEq

/-- Handler `on_byPlayer_cast(event)`: starts the cooldown of the cast ability. -/
def on_byPlayer_cast (cfg : Config) (s : EngineState) (event : CastEvent) :
    Except String EngineState :=
  startCooldown cfg s event.ability.guid none

/-- The `Object.keys(...).forEach` body of `on_event`: for each key captured
before the walk, finish the cooldown when the event timestamp is strictly
past its `expectedEnd` (`>` not `>=` in the source). A key whose record
vanished mid-walk would be a JS `TypeError`; with distinct keys, finishing
one ability never removes another, so the branch is unreachable. -/
def sweep (cfg : Config) (timestamp : Int) : List Nat → EngineState → Except String EngineState
  | [], s => .ok s
  | spellId :: rest, s =>
    match storeFind s.currentCooldowns spellId with
    | none => .error (s!"TypeError: no record for {spellId}")
    | some activeCooldown =>
      if timestamp > activeCooldown.expectedEnd then
        match finishCooldown cfg s spellId false with
        | .error e => .error e
        | .ok s2 => sweep cfg timestamp rest s2
      else
        sweep cfg timestamp rest s

/-- Handler `on_event(_, event)`: falsy events are ignored; otherwise every tracked
cooldown whose `expectedEnd` lies strictly before the event timestamp is
finished. -/
def on_event (cfg : Config) (s : EngineState) (event : Option Event) :
    Except String EngineState :=
  match event with
  | none => .ok s
  | some ev => sweep cfg ev.timestamp (storeKeys s.currentCooldowns) s

theorem storeFind_isSome_of_mem (st : List (Nat × CooldownRecord)) (id : Nat)
    (h : id ∈ storeKeys st) : (storeFind st id).isSome = true := by
  rcases hh : storeFind st id with _ | r
  · exact absurd ((storeFind_eq_none_iff st id).mp hh) (by simpa using h)
  · rfl

/-- The record (or its absence) the sweep leaves for one tracked ability. -/
def sweptRecord (cfg : Config) (timestamp now : Int) (id : Nat) (r : CooldownRecord) :
    Option CooldownRecord :=
  if timestamp > r.expectedEnd then finishedRecord cfg now id r false else some r

/-- What the sweep does over a duplicate-free snapshot of keys whose records
are all present: it succeeds and maps each covered record through
`sweptRecord`, leaving everything outside the snapshot alone. -/
theorem sweep_ok (cfg : Config) (ts : Int) (ks : List Nat) :
    ∀ s : EngineState, ks.Nodup →
    (∀ k ∈ ks, (storeFind s.currentCooldowns k).isSome = true) →
    ∃ s2, sweep cfg ts ks s = .ok s2 ∧
      s2.currentTimestamp = s.currentTimestamp ∧
      ((storeKeys s.currentCooldowns).Nodup → (storeKeys s2.currentCooldowns).Nodup) ∧
      (∀ id, id ∉ ks → storeFind s2.currentCooldowns id = storeFind s.currentCooldowns id) ∧
      (∀ id r, id ∈ ks → storeFind s.currentCooldowns id = some r →
        storeFind s2.currentCooldowns id = sweptRecord cfg ts s.currentTimestamp id r) := by
  induction ks with
  | nil =>
    intro s _ _
    exact ⟨s, rfl, rfl, fun hnd => hnd, fun _ _ => rfl, by simp⟩
  | cons k rest ih =>
    intro s hnd hall
    have hknotin : k ∉ rest := (List.nodup_cons.mp hnd).1
    have hndr : rest.Nodup := (List.nodup_cons.mp hnd).2
    obtain ⟨r, hr⟩ : ∃ r, storeFind s.currentCooldowns k = some r := by
      rcases hh : storeFind s.currentCooldowns k with _ | r
      · have := hall k (by simp)
        rw [hh] at this
        exact absurd this (by simp)
      · exact ⟨r, rfl⟩
    by_cases hgt : ts > r.expectedEnd
    · obtain ⟨s1, hok1, hts1, hne1, hid1, hnd1, _⟩ := finishCooldown_ok cfg s k r false hr
      obtain ⟨s2, hok2, hts2, hnd2, hout2, hin2⟩ := ih s1 hndr (by
        intro j hj
        have hjk : j ≠ k := fun he => hknotin (he ▸ hj)
        rw [hne1 j hjk]
        exact hall j (by simp [hj]))
      refine ⟨s2, ?_, hts2.trans hts1, fun hnds => hnd2 (hnd1 hnds), ?_, ?_⟩
      · rw [sweep]
        simp only [hr, hok1]
        rw [if_pos hgt]
        exact hok2
      · intro id hid
        have hidk : id ≠ k := fun he => hid (by simp [he])
        have hidr : id ∉ rest := fun he => hid (by simp [he])
        rw [hout2 id hidr, hne1 id hidk]
      · intro id r0 hmem hfound
        rcases List.mem_cons.mp hmem with he | hmr
        · subst he
          rw [hfound] at hr
          injection hr with he2
          subst he2
          rw [hout2 id hknotin, hid1, sweptRecord, if_pos hgt]
        · have hidk : id ≠ k := fun he => hknotin (he ▸ hmr)
          have hfound1 : storeFind s1.currentCooldowns id = some r0 := by
            rw [hne1 id hidk]; exact hfound
          have := hin2 id r0 hmr hfound1
          rw [this, hts1]
    · obtain ⟨s2, hok2, hts2, hnd2, hout2, hin2⟩ := ih s hndr (by
        intro j hj
        exact hall j (by simp [hj]))
      refine ⟨s2, ?_, hts2, hnd2, ?_, ?_⟩
      · rw [sweep]
        simp only [hr]
        rw [if_neg hgt]
        exact hok2
      · intro id hid
        exact hout2 id (fun he => hid (by simp [he]))
      · intro id r0 hmem hfound
        rcases List.mem_cons.mp hmem with he | hmr
        · subst he
          rw [hfound] at hr
          injection hr with he2
          subst he2
          rw [hout2 id hknotin, hfound, sweptRecord, if_neg hgt]
        · exact hin2 id r0 hmr hfound

/-- Totality of `startCooldown`: every branch, including the recursive
desynchronization recovery, returns `.ok`; it never touches another
ability's record, preserves key-uniqueness of the store, and keeps the
tracked charge count of its ability within `1 .. getMaxCharges` whenever it
was within those bounds before (for a configured maximum of at least 1). -/
theorem startCooldown_spec (cfg : Config) :
    ∀ (s : EngineState) (id : Nat) (ov : Option Int),
    ∃ s2, startCooldown cfg s id ov = .ok s2 ∧
      s2.currentTimestamp = s.currentTimestamp ∧
      (∀ j, j ≠ id → storeFind s2.currentCooldowns j = storeFind s.currentCooldowns j) ∧
      ((storeKeys s.currentCooldowns).Nodup → (storeKeys s2.currentCooldowns).Nodup) ∧
      (1 ≤ cfg.getMaxCharges id →
        (∀ r, storeFind s.currentCooldowns id = some r →
          1 ≤ r.charges ∧ r.charges ≤ cfg.getMaxCharges id) →
        (∀ r2, storeFind s2.currentCooldowns id = some r2 →
          1 ≤ r2.charges ∧ r2.charges ≤ cfg.getMaxCharges id)) := by
  intro s0 id0 ov0
  induction s0, id0, ov0 using startCooldown.induct cfg with
  | case1 s id ov dur hdur =>
    replace hdur : effectiveDuration ov (cfg.getExpectedCooldownDuration id) = 0 := hdur
    refine ⟨pushDiag s (.warnNoCooldown id), startCooldown_noop cfg s id ov hdur, rfl,
      fun j _ => rfl, fun h => h, ?_⟩
    intro _ hb r2 h2
    exact hb r2 h2
  | case2 s id ov dur hdur hon =>
    replace hdur : effectiveDuration ov (cfg.getExpectedCooldownDuration id) ≠ 0 := hdur
    have hoff : storeFind s.currentCooldowns id = none := by
      rcases hh : storeFind s.currentCooldowns id with _ | r
      · rfl
      · simp [isOnCooldown, hh] at hon
    refine ⟨_, startCooldown_create cfg s id ov hdur hoff, rfl, ?_, ?_, ?_⟩
    · intro j hj
      simpa using storeFind_storeSet_ne s.currentCooldowns id j _ hj
    · intro hnd
      simpa using nodup_storeSet s.currentCooldowns id _ hnd
    · intro hmax _ r2 h2
      have hself := storeFind_storeSet_self s.currentCooldowns id { start := s.currentTimestamp, expectedEnd := s.currentTimestamp + effectiveDuration ov (cfg.getExpectedCooldownDuration id), charges := 1 }
      rw [pushNotif_currentCooldowns] at h2
      rw [hself] at h2
      injection h2 with he
      subst he
      exact ⟨le_refl 1, hmax⟩
  | case3 s id ov dur hdur hon hav =>
    replace hdur : effectiveDuration ov (cfg.getExpectedCooldownDuration id) ≠ 0 := hdur
    obtain ⟨r, hr⟩ : ∃ r, storeFind s.currentCooldowns id = some r := by
      rcases hh : storeFind s.currentCooldowns id with _ | r
      · exact absurd (by simp [isOnCooldown, hh]) hon
      · exact ⟨r, rfl⟩
    have havi : cfg.getMaxCharges id > r.charges := by
      by_contra hlt
      simp [isAvailable, hr, hlt] at hav
    refine ⟨_, startCooldown_charge cfg s id ov r hdur hr havi, rfl, ?_, ?_, ?_⟩
    · intro j hj
      simpa using storeFind_storeModify_ne s.currentCooldowns id j _ hj
    · intro hnd
      simpa using nodup_storeModify s.currentCooldowns id _ hnd
    · intro _ hb r2 h2
      have hself := storeFind_storeModify_self s.currentCooldowns id (fun r0 => { r0 with charges := r0.charges + 1 }) r hr
      rw [pushNotif_currentCooldowns] at h2
      rw [hself] at h2
      injection h2 with he
      subst he
      have hbr := hb r hr
      constructor
      · show (1 : Int) ≤ r.charges + 1
        omega
      · show r.charges + 1 ≤ cfg.getMaxCharges id
        omega
  | case4 s id ov dur hdur hon hav e hfin =>
    obtain ⟨r, hr⟩ : ∃ r, storeFind s.currentCooldowns id = some r := by
      rcases hh : storeFind s.currentCooldowns id with _ | r
      · exact absurd (by simp [isOnCooldown, hh]) hon
      · exact ⟨r, rfl⟩
    obtain ⟨s2x, hok, _⟩ := finishCooldown_ok cfg (pushDiag s (.errorDesync id)) id r false hr
    rw [hok] at hfin
    exact absurd hfin (by simp)
  | case5 s id ov dur hdur hon hav s2 hfin ih =>
    replace hdur : effectiveDuration ov (cfg.getExpectedCooldownDuration id) ≠ 0 := hdur
    obtain ⟨r, hr⟩ : ∃ r, storeFind s.currentCooldowns id = some r := by
      rcases hh : storeFind s.currentCooldowns id with _ | r
      · exact absurd (by simp [isOnCooldown, hh]) hon
      · exact ⟨r, rfl⟩
    have hsat : ¬(cfg.getMaxCharges id > r.charges) := by
      intro hlt
      exact hav (by simp [isAvailable, hr, hlt])
    obtain ⟨s2x, hok, hts1, hne1, hid1, hnd1, _⟩ :=
      finishCooldown_ok cfg (pushDiag s (.errorDesync id)) id r false hr
    rw [hok] at hfin
    injection hfin with he
    subst he
    obtain ⟨s3, hok3, hts3, hne3, hnd3, hb3⟩ := ih
    refine ⟨s3, ?_, ?_, ?_, ?_, ?_⟩
    · rw [startCooldown_recover cfg s id ov r _ hdur hr hsat hok]
      exact hok3
    · rw [hts3, hts1]
      rfl
    · intro j hj
      rw [hne3 j hj, hne1 j hj]
      rfl
    · intro hnd
      exact hnd3 (hnd1 hnd)
    · intro hmax hb
      refine hb3 hmax ?_
      intro r2 h2
      rw [hid1] at h2
      rw [finishedRecord] at h2
      by_cases hlast : r.charges = 1 ∨ false = true
      · rw [if_pos hlast] at h2
        exact absurd h2 (by simp)
      · rw [if_neg hlast] at h2
        have hbr := hb r hr
        push_neg at hlast
        rw [refreshedRecord] at h2
        by_cases hcat : effectiveDuration none (cfg.getExpectedCooldownDuration id) = 0
        · rw [if_pos hcat] at h2
          injection h2 with he2
          subst he2
          constructor
          · show (1 : Int) ≤ r.charges - 1
            omega
          · show r.charges - 1 ≤ cfg.getMaxCharges id
            omega
        · rw [if_neg hcat] at h2
          injection h2 with he2
          subst he2
          constructor
          · show (1 : Int) ≤ r.charges - 1
            omega
          · show r.charges - 1 ≤ cfg.getMaxCharges id
            omega

theorem refreshedRecord_charges (cfg : Config) (now : Int) (id : Nat) (ov : Option Int)
    (r : CooldownRecord) : (refreshedRecord cfg now id ov r).charges = r.charges := by
  rw [refreshedRecord]
  split
  · rfl
  · rfl

theorem finishedRecord_bounds (cfg : Config) (now : Int) (id : Nat) (r : CooldownRecord)
    (b : Bool) (r2 : CooldownRecord)
    (hb : 1 ≤ r.charges ∧ r.charges ≤ cfg.getMaxCharges id)
    (h : finishedRecord cfg now id r b = some r2) :
    1 ≤ r2.charges ∧ r2.charges ≤ cfg.getMaxCharges id := by
  rw [finishedRecord] at h
  by_cases hlast : r.charges = 1 ∨ b = true
  · rw [if_pos hlast] at h
    exact absurd h (by simp)
  · rw [if_neg hlast] at h
    push_neg at hlast
    injection h with he
    have hch : r2.charges = r.charges - 1 := by
      rw [← he, refreshedRecord_charges]
    constructor
    · omega
    · omega

/-- A fresh engine state as the replay driver would see it at timestamp `t`:
no cooldown tracked yet, nothing published or surfaced. -/
def initState (t : Int) : EngineState :=
  { currentCooldowns := [], currentTimestamp := t, published := [], diags := [] }

/-- One externally-drivable engine operation: the public methods, the two
event-stream entry points, and the driver moving the ambient clock. -/
inductive Op where
  | start (id : Nat) (overrideDurationMs : Option Int)
  | finish (id : Nat) (resetAllCharges : Bool)
  | refresh (id : Nat) (overrideDurationMs : Option Int)
  | reduce (id : Nat) (durationMs : Int)
  | cast (event : CastEvent)
  | anyEvent (event : Option Event)
  | setTime (t : Int)
deriving DecidableEq

/-- Interpretation of one operation on the engine state. -/
def step (cfg : Config) (s : EngineState) : Op → Except String EngineState
  | .start id ov => startCooldown cfg s id ov
  | .finish id b => finishCooldown cfg s id b
  | .refresh id ov => refreshCooldown cfg s id ov
  | .reduce id d =>
    match reduceCooldown cfg s id d with
    | .error e => .error e
    | .ok (s2, _) => .ok s2
  | .cast ev => on_byPlayer_cast cfg s ev
  | .anyEvent ev => on_event cfg s ev
  | .setTime t => .ok { s with currentTimestamp := t }

/-- Run a sequence of operations left to right, stopping at the first throw. -/
def run (cfg : Config) : EngineState → List Op → Except String EngineState
  | s, [] => .ok s
  | s, op :: ops =>
    match step cfg s op with
    | .error _ => step cfg s op
    | .ok s2 => run cfg s2 ops

/-- Whether an operation passes the given ability to `startCooldown`
(directly or through a cast event). -/
def Op.startsAbility : Op → Nat → Bool
  | .start j _, id => j == id
  | .cast ev, id => ev.ability.guid == id
  | _, _ => false

/-- The store invariant of the data model: unique keys, and every tracked
record holds between 1 and the configured maximum number of charges. -/
def StoreInv (cfg : Config) (s : EngineState) : Prop :=
  (storeKeys s.currentCooldowns).Nodup ∧
  ∀ id r, storeFind s.currentCooldowns id = some r →
    1 ≤ r.charges ∧ r.charges ≤ cfg.getMaxCharges id

/-- Every successful engine step preserves the store invariant, provided
every configured maximum charge count is at least 1 (abilities have 1..N
charges). -/
theorem step_inv (cfg : Config) (hmax : ∀ id, 1 ≤ cfg.getMaxCharges id)
    (s s2 : EngineState) (op : Op) (h : step cfg s op = .ok s2)
    (hinv : StoreInv cfg s) : StoreInv cfg s2 := by
  obtain ⟨hnd, hb⟩ := hinv
  cases op with
  | start id ov =>
    obtain ⟨s2x, hok, _, hne, hndc, hbc⟩ := startCooldown_spec cfg s id ov
    rw [step, hok] at h
    injection h with he
    subst he
    refine ⟨hndc hnd, ?_⟩
    intro j r2 h2
    by_cases hj : j = id
    · subst hj
      exact hbc (hmax j) (hb j) r2 h2
    · rw [hne j hj] at h2
      exact hb j r2 h2
  | finish id b =>
    rw [step] at h
    rcases hr : storeFind s.currentCooldowns id with _ | r
    · rw [finishCooldown, hr] at h
      exact absurd h (by simp)
    · obtain ⟨s2x, hok, _, hne, hid, hndc, _⟩ := finishCooldown_ok cfg s id r b hr
      rw [hok] at h
      injection h with he
      subst he
      refine ⟨hndc hnd, ?_⟩
      intro j r2 h2
      by_cases hj : j = id
      · subst hj
        rw [hid] at h2
        exact finishedRecord_bounds cfg s.currentTimestamp j r b r2 (hb j r hr) h2
      · rw [hne j hj] at h2
        exact hb j r2 h2
  | refresh id ov =>
    rw [step] at h
    rcases hr : storeFind s.currentCooldowns id with _ | r
    · rw [refreshCooldown, hr] at h
      exact absurd h (by simp)
    · obtain ⟨s2x, hok, _, hkeys, hne, hid, _⟩ := refreshCooldown_ok cfg s id ov r hr
      rw [hok] at h
      injection h with he
      subst he
      refine ⟨by rw [hkeys]; exact hnd, ?_⟩
      intro j r2 h2
      by_cases hj : j = id
      · subst hj
        rw [hid] at h2
        injection h2 with he2
        have := refreshedRecord_charges cfg s.currentTimestamp j ov r
        rw [he2] at this
        have hbr := hb j r hr
        omega
      · rw [hne j hj] at h2
        exact hb j r2 h2
  | reduce id d =>
    rw [step] at h
    rcases hr : storeFind s.currentCooldowns id with _ | r
    · rw [reduceCooldown, hr] at h
      injection h with he
      rw [← he]
      exact ⟨hnd, hb⟩
    · rw [reduceCooldown, hr] at h
      simp only at h
      by_cases hlt : r.expectedEnd - s.currentTimestamp < d
      · rw [if_pos hlt] at h
        obtain ⟨s2x, hok, _, hne, hid, hndc, _⟩ := finishCooldown_ok cfg s id r false hr
        rw [hok] at h
        injection h with he
        subst he
        refine ⟨hndc hnd, ?_⟩
        intro j r2 h2
        by_cases hj : j = id
        · subst hj
          rw [hid] at h2
          exact finishedRecord_bounds cfg s.currentTimestamp j r false r2 (hb j r hr) h2
        · rw [hne j hj] at h2
          exact hb j r2 h2
      · rw [if_neg hlt] at h
        injection h with he
        subst he
        constructor
        · simpa [storeKeys_storeModify] using hnd
        · intro j r2 h2
          by_cases hj : j = id
          · subst hj
            have hself := storeFind_storeModify_self s.currentCooldowns j (fun r0 => { r0 with expectedEnd := r0.expectedEnd - d }) r hr
            have h2x : storeFind (storeModify s.currentCooldowns j (fun r0 => { r0 with expectedEnd := r0.expectedEnd - d })) j = some r2 := h2
            rw [hself] at h2x
            injection h2x with he2
            subst he2
            exact hb j r hr
          · have hne2 := storeFind_storeModify_ne s.currentCooldowns id j (fun r0 => { r0 with expectedEnd := r0.expectedEnd - d }) hj
            have h2x : storeFind (storeModify s.currentCooldowns id (fun r0 => { r0 with expectedEnd := r0.expectedEnd - d })) j = some r2 := h2
            rw [hne2] at h2x
            exact hb j r2 h2x
  | cast ev =>
    obtain ⟨s2x, hok, _, hne, hndc, hbc⟩ := startCooldown_spec cfg s ev.ability.guid none
    rw [step, on_byPlayer_cast, hok] at h
    injection h with he
    subst he
    refine ⟨hndc hnd, ?_⟩
    intro j r2 h2
    by_cases hj : j = ev.ability.guid
    · rw [hj] at h2
      rw [hj]
      exact hbc (hmax _) (hb _) r2 h2
    · rw [hne j hj] at h2
      exact hb j r2 h2
  | anyEvent ev =>
    rw [step] at h
    cases ev with
    | none =>
      rw [on_event] at h
      injection h with he
      subst he
      exact ⟨hnd, hb⟩
    | some e =>
      obtain ⟨s2x, hok, _, hndc, hout, hin⟩ := sweep_ok cfg e.timestamp
        (storeKeys s.currentCooldowns) s hnd
        (fun k hk => storeFind_isSome_of_mem s.currentCooldowns k hk)
      rw [on_event, hok] at h
      injection h with he
      subst he
      refine ⟨hndc hnd, ?_⟩
      intro j r2 h2
      by_cases hj : j ∈ storeKeys s.currentCooldowns
      · rcases hr : storeFind s.currentCooldowns j with _ | r
        · exact absurd ((storeFind_eq_none_iff _ _).mp hr) (by simpa using hj)
        · rw [hin j r hj hr, sweptRecord] at h2
          by_cases hgt : e.timestamp > r.expectedEnd
          · rw [if_pos hgt] at h2
            exact finishedRecord_bounds cfg s.currentTimestamp j r false r2 (hb j r hr) h2
          · rw [if_neg hgt] at h2
            injection h2 with he2
            subst he2
            exact hb j r hr
      · rw [hout j hj] at h2
        exact hb j r2 h2
  | setTime t =>
    rw [step] at h
    injection h with he
    subst he
    exact ⟨hnd, hb⟩

/-- A successful step of an operation that does not start the cooldown of
`id` cannot create a record for `id`. -/
theorem step_absent (cfg : Config) (s s2 : EngineState) (op : Op) (id : Nat)
    (h : step cfg s op = .ok s2)
    (hop : op.startsAbility id = false)
    (hinv : StoreInv cfg s)
    (habs : storeFind s.currentCooldowns id = none) :
    storeFind s2.currentCooldowns id = none := by
  cases op with
  | start j ov =>
    have hj : id ≠ j := by
      intro he
      rw [Op.startsAbility, he] at hop
      simp at hop
    obtain ⟨s2x, hok, _, hne, _, _⟩ := startCooldown_spec cfg s j ov
    rw [step, hok] at h
    injection h with he
    subst he
    rw [hne id hj]
    exact habs
  | finish j b =>
    rw [step] at h
    rcases hr : storeFind s.currentCooldowns j with _ | r
    · rw [finishCooldown, hr] at h
      exact absurd h (by simp)
    · have hj : id ≠ j := by
        intro he
        rw [he, hr] at habs
        exact Option.noConfusion habs
      obtain ⟨s2x, hok, _, hne, _, _, _⟩ := finishCooldown_ok cfg s j r b hr
      rw [hok] at h
      injection h with he
      subst he
      rw [hne id hj]
      exact habs
  | refresh j ov =>
    rw [step] at h
    rcases hr : storeFind s.currentCooldowns j with _ | r
    · rw [refreshCooldown, hr] at h
      exact absurd h (by simp)
    · have hj : id ≠ j := by
        intro he
        rw [he, hr] at habs
        exact Option.noConfusion habs
      obtain ⟨s2x, hok, _, _, hne, _, _⟩ := refreshCooldown_ok cfg s j ov r hr
      rw [hok] at h
      injection h with he
      subst he
      rw [hne id hj]
      exact habs
  | reduce j d =>
    rw [step] at h
    rcases hr : storeFind s.currentCooldowns j with _ | r
    · rw [reduceCooldown, hr] at h
      injection h with he
      rw [← he]
      exact habs
    · have hj : id ≠ j := by
        intro he
        rw [he, hr] at habs
        exact Option.noConfusion habs
      rw [reduceCooldown, hr] at h
      simp only at h
      by_cases hlt : r.expectedEnd - s.currentTimestamp < d
      · rw [if_pos hlt] at h
        obtain ⟨s2x, hok, _, hne, _, _, _⟩ := finishCooldown_ok cfg s j r false hr
        rw [hok] at h
        injection h with he
        subst he
        rw [hne id hj]
        exact habs
      · rw [if_neg hlt] at h
        injection h with he
        subst he
        have hne2 := storeFind_storeModify_ne s.currentCooldowns j id (fun r0 => { r0 with expectedEnd := r0.expectedEnd - d }) hj
        have hgoal : storeFind (storeModify s.currentCooldowns j (fun r0 => { r0 with expectedEnd := r0.expectedEnd - d })) id = storeFind s.currentCooldowns id := hne2
        rw [show storeFind s.currentCooldowns id = none from habs] at hgoal
        exact hgoal
  | cast ev =>
    have hj : id ≠ ev.ability.guid := by
      intro he
      rw [Op.startsAbility, he] at hop
      simp at hop
    obtain ⟨s2x, hok, _, hne, _, _⟩ := startCooldown_spec cfg s ev.ability.guid none
    rw [step, on_byPlayer_cast, hok] at h
    injection h with he
    subst he
    rw [hne id hj]
    exact habs
  | anyEvent ev =>
    rw [step] at h
    cases ev with
    | none =>
      rw [on_event] at h
      injection h with he
      subst he
      exact habs
    | some e =>
      obtain ⟨s2x, hok, _, _, hout, _⟩ := sweep_ok cfg e.timestamp
        (storeKeys s.currentCooldowns) s hinv.1
        (fun k hk => storeFind_isSome_of_mem s.currentCooldowns k hk)
      rw [on_event, hok] at h
      injection h with he
      subst he
      rw [hout id ((storeFind_eq_none_iff _ _).mp habs)]
      exact habs
  | setTime t =>
    rw [step] at h
    injection h with he
    subst he
    exact habs

/-- Running any operation sequence from an invariant-respecting state keeps
the invariant and never materializes a record for an ability none of the
operations start. -/
theorem run_spec (cfg : Config) (hmax : ∀ id, 1 ≤ cfg.getMaxCharges id) :
    ∀ (ops : List Op) (s s2 : EngineState), run cfg s ops = .ok s2 → StoreInv cfg s →
      StoreInv cfg s2 ∧
      (∀ id, (∀ op ∈ ops, op.startsAbility id = false) →
        storeFind s.currentCooldowns id = none → storeFind s2.currentCooldowns id = none) := by
  intro ops
  induction ops with
  | nil =>
    intro s s2 h hinv
    rw [run] at h
    injection h with he
    subst he
    exact ⟨hinv, fun _ _ habs => habs⟩
  | cons op ops ih =>
    intro s s2 h hinv
    rw [run] at h
    rcases hs : step cfg s op with e | s1
    · rw [hs] at h
      exact absurd h (by simp)
    · rw [hs] at h
      have hinv1 : StoreInv cfg s1 := step_inv cfg hmax s s1 op hs hinv
      obtain ⟨hinv2, habs2⟩ := ih s1 s2 h hinv1
      refine ⟨hinv2, ?_⟩
      intro id hops habs
      have habs1 : storeFind s1.currentCooldowns id = none :=
        step_absent cfg s s1 op id hs (hops op (by simp)) hinv habs
      exact habs2 id (fun o ho => hops o (by simp [ho])) habs1

/-- Sample catalog: every ability has a 1000 ms cooldown and 2 max charges. -/
def cfgTwoCharges : Config :=
  { getMaxCharges := fun _ => 2, getExpectedCooldownDuration := fun _ => 1000 }

/-- Sample catalog: every ability has a 1000 ms cooldown and a single charge. -/
def cfgOneCharge : Config :=
  { getMaxCharges := fun _ => 1, getExpectedCooldownDuration := fun _ => 0 + 1000 }

/-- Sample catalog: no ability has a cooldown configured. -/
def cfgNoCooldown : Config :=
  { getMaxCharges := fun _ => 1, getExpectedCooldownDuration := fun _ => 0 }

/-- Ability 7 fully saturated: both charges consumed, cooldown running. -/
def stateSaturated : EngineState :=
  { currentCooldowns := [(7, { start := 0, expectedEnd := 1000, charges := 2 })],
    currentTimestamp := 100, published := [], diags := [] }

/-- Ability 3 on cooldown with one charge consumed, 1000 ms remaining. -/
def stateOneCharge : EngineState :=
  { currentCooldowns := [(3, { start := 0, expectedEnd := 1000, charges := 1 })],
    currentTimestamp := 0, published := [], diags := [] }

/-- Two abilities on cooldown, due at 1000 and 500 respectively. -/
def stateTwoTracked : EngineState :=
  { currentCooldowns := [(1, { start := 0, expectedEnd := 1000, charges := 1 }),
                         (2, { start := 0, expectedEnd := 500, charges := 1 })],
    currentTimestamp := 0, published := [], diags := [] }

/-- C6: `isAvailable` returns `true` whenever no record exists; with a record
it returns `true` exactly when the configured maximum charge count strictly
exceeds the record's charges; and it is not the negation of `isOnCooldown`,
since a state exists in which an ability is on cooldown and available at
once. -/
theorem C6_available_policy (cfg : Config) (s : EngineState) (id : Nat) :
    (isOnCooldown s id = false → isAvailable cfg s id = true) ∧
    (∀ r, storeFind s.currentCooldowns id = some r →
      (isAvailable cfg s id = true ↔ cfg.getMaxCharges id > r.charges)) ∧
    (∃ cfg2 s2 id2, isOnCooldown s2 id2 = true ∧ isAvailable cfg2 s2 id2 = true) := by
  refine ⟨?_, ?_, ?_⟩
  · intro h
    rcases hr : storeFind s.currentCooldowns id with _ | r
    · simp [isAvailable, hr]
    · simp [isOnCooldown, hr] at h
  · intro r hr
    constructor
    · intro h
      by_contra hlt
      simp [isAvailable, hr, hlt] at h
    · intro h
      simp [isAvailable, hr, h]
  · exact ⟨cfgTwoCharges, stateOneCharge, 3, by decide, by decide⟩

/-- C6 witness: the policy applied to a concrete on-cooldown record with a
spare charge. -/
theorem C6_available_witness :
    storeFind stateOneCharge.currentCooldowns 3 = some { start := 0, expectedEnd := 1000, charges := 1 } ∧
    isAvailable cfgTwoCharges stateOneCharge 3 = true :=
  ⟨by decide, ((C6_available_policy cfgTwoCharges stateOneCharge 3).2.1
    { start := 0, expectedEnd := 1000, charges := 1 } (by decide)).mpr (by decide)⟩

/-- C7: `finishCooldown` and `refreshCooldown` on an ability that is not on
cooldown both raise the invalid-state error. In this embedding a call that
returns `.error` produces no successor state at all, so the store is left
untouched by the failing call. -/
theorem C7_invalid_state (cfg : Config) (s : EngineState) (id : Nat) (b : Bool) (ov : Option Int)
    (h : isOnCooldown s id = false) :
    (∃ msg, finishCooldown cfg s id b = .error msg) ∧
    (∃ msg2, refreshCooldown cfg s id ov = .error msg2) := by
  have hr : storeFind s.currentCooldowns id = none := by
    rcases hh : storeFind s.currentCooldowns id with _ | r
    · rfl
    · simp [isOnCooldown, hh] at h
  constructor
  · exact ⟨_, by rw [finishCooldown, hr]⟩
  · exact ⟨_, by rw [refreshCooldown, hr]⟩

/-- C7 witness: both calls fail on a fresh state tracking nothing. -/
theorem C7_invalid_state_witness :
    isOnCooldown (initState 0) 42 = false ∧
    (∃ msg, finishCooldown cfgTwoCharges (initState 0) 42 false = .error msg) ∧
    (∃ msg2, refreshCooldown cfgTwoCharges (initState 0) 42 none = .error msg2) :=
  ⟨by decide, C7_invalid_state cfgTwoCharges (initState 0) 42 false none (by decide)⟩

/-- C8: when no override is given and the catalog resolves no duration,
`startCooldown` is a no-op apart from the `console.warn` diagnostic: the
store is untouched (no record created or changed), nothing is published,
and no error is raised. -/
theorem C8_config_gap_noop (cfg : Config) (s : EngineState) (id : Nat)
    (hcat : cfg.getExpectedCooldownDuration id = 0) :
    ∃ s2, startCooldown cfg s id none = .ok s2 ∧
      s2.currentCooldowns = s.currentCooldowns ∧
      s2.published = s.published ∧
      s2 = pushDiag s (.warnNoCooldown id) := by
  have hdur : effectiveDuration none (cfg.getExpectedCooldownDuration id) = 0 := by
    simp [effectiveDuration, hcat]
  exact ⟨pushDiag s (.warnNoCooldown id), startCooldown_noop cfg s id none hdur, rfl, rfl, rfl⟩

/-- C8 witness: a concrete ability with no configured cooldown. -/
theorem C8_config_gap_witness :
    cfgNoCooldown.getExpectedCooldownDuration 9 = 0 ∧
    (∃ s2, startCooldown cfgNoCooldown stateOneCharge 9 none = .ok s2 ∧
      s2.currentCooldowns = stateOneCharge.currentCooldowns ∧
      s2.published = stateOneCharge.published ∧
      s2 = pushDiag stateOneCharge (.warnNoCooldown 9)) :=
  ⟨rfl, C8_config_gap_noop cfgNoCooldown stateOneCharge 9 rfl⟩

/-- Two `startCooldown` calls that resolve the same effective duration are
indistinguishable, override or not: the override enters the computation only
through `overrideDurationMs || catalogDuration`. -/
theorem startCooldown_congr (cfg : Config) :
    ∀ (s : EngineState) (id : Nat) (ov1 : Option Int), ∀ ov2 : Option Int,
    effectiveDuration ov1 (cfg.getExpectedCooldownDuration id) =
      effectiveDuration ov2 (cfg.getExpectedCooldownDuration id) →
    startCooldown cfg s id ov1 = startCooldown cfg s id ov2 := by
  intro s0 id0 ov0
  induction s0, id0, ov0 using startCooldown.induct cfg with
  | case1 s id ov dur hdur =>
    intro ov2 hd
    replace hdur : effectiveDuration ov (cfg.getExpectedCooldownDuration id) = 0 := hdur
    rw [startCooldown_noop cfg s id ov hdur, startCooldown_noop cfg s id ov2 (hd ▸ hdur)]
  | case2 s id ov dur hdur hon =>
    intro ov2 hd
    replace hdur : effectiveDuration ov (cfg.getExpectedCooldownDuration id) ≠ 0 := hdur
    have hoff : storeFind s.currentCooldowns id = none := by
      rcases hh : storeFind s.currentCooldowns id with _ | r
      · rfl
      · simp [isOnCooldown, hh] at hon
    rw [startCooldown_create cfg s id ov hdur hoff,
      startCooldown_create cfg s id ov2 (hd ▸ hdur) hoff, hd]
  | case3 s id ov dur hdur hon hav =>
    intro ov2 hd
    replace hdur : effectiveDuration ov (cfg.getExpectedCooldownDuration id) ≠ 0 := hdur
    obtain ⟨r, hr⟩ : ∃ r, storeFind s.currentCooldowns id = some r := by
      rcases hh : storeFind s.currentCooldowns id with _ | r
      · exact absurd (by simp [isOnCooldown, hh]) hon
      · exact ⟨r, rfl⟩
    have havi : cfg.getMaxCharges id > r.charges := by
      by_contra hlt
      simp [isAvailable, hr, hlt] at hav
    rw [startCooldown_charge cfg s id ov r hdur hr havi,
      startCooldown_charge cfg s id ov2 r (hd ▸ hdur) hr havi]
  | case4 s id ov dur hdur hon hav e hfin =>
    intro ov2 hd
    obtain ⟨r, hr⟩ : ∃ r, storeFind s.currentCooldowns id = some r := by
      rcases hh : storeFind s.currentCooldowns id with _ | r
      · exact absurd (by simp [isOnCooldown, hh]) hon
      · exact ⟨r, rfl⟩
    obtain ⟨s2x, hok, _⟩ := finishCooldown_ok cfg (pushDiag s (.errorDesync id)) id r false hr
    rw [hok] at hfin
    exact absurd hfin (by simp)
  | case5 s id ov dur hdur hon hav s2 hfin ih =>
    intro ov2 hd
    replace hdur : effectiveDuration ov (cfg.getExpectedCooldownDuration id) ≠ 0 := hdur
    obtain ⟨r, hr⟩ : ∃ r, storeFind s.currentCooldowns id = some r := by
      rcases hh : storeFind s.currentCooldowns id with _ | r
      · exact absurd (by simp [isOnCooldown, hh]) hon
      · exact ⟨r, rfl⟩
    have hsat : ¬(cfg.getMaxCharges id > r.charges) := by
      intro hlt
      exact hav (by simp [isAvailable, hr, hlt])
    rw [startCooldown_recover cfg s id ov r s2 hdur hr hsat hfin,
      startCooldown_recover cfg s id ov2 r s2 (hd ▸ hdur) hr hsat hfin]
    exact ih ov2 hd

/-- C10: an explicit override of `0` is falsy in `override || catalog`, so
`startCooldown(A, 0)` and `refreshCooldown(A, 0)` behave exactly like the
calls with no override, falling back to the catalog duration. -/
theorem C10_zero_override (cfg : Config) (s : EngineState) (id : Nat) :
    startCooldown cfg s id (some 0) = startCooldown cfg s id none ∧
    refreshCooldown cfg s id (some 0) = refreshCooldown cfg s id none := by
  constructor
  · exact startCooldown_congr cfg s id (some 0) none (by simp [effectiveDuration])
  · rcases hr : storeFind s.currentCooldowns id with _ | r
    · rw [refreshCooldown, refreshCooldown, hr]
    · rw [refreshCooldown, refreshCooldown, hr]
      simp [effectiveDuration]

/-- C10 witness: a concrete zero-override call equals the overrideless one. -/
theorem C10_zero_override_witness :
    startCooldown cfgTwoCharges stateOneCharge 3 (some 0) =
      startCooldown cfgTwoCharges stateOneCharge 3 none ∧
    refreshCooldown cfgTwoCharges stateOneCharge 3 (some 0) =
      refreshCooldown cfgTwoCharges stateOneCharge 3 none :=
  C10_zero_override cfgTwoCharges stateOneCharge 3

/-- C1 counterexample: with 2 configured max charges and both consumed
(`stateSaturated`), the source's recovery path does NOT remove the record —
`finishCooldown` is called without `resetAllCharges`, finishing one charge
only, and the retry lands on the `startcooldowncharge` branch, leaving
`charges = 2`. Removing the record entirely and retrying, as the claim
states (modelled by `startCooldownSpecC1`), would leave `charges = 1`. -/
theorem C1_not_removed_entirely :
    (startCooldown cfgTwoCharges stateSaturated 7 none).map
      (fun t => (storeFind t.currentCooldowns 7).map (fun r => r.charges)) = .ok (some 2) ∧
    (startCooldownSpecC1 cfgTwoCharges stateSaturated 7 none).map
      (fun t => (storeFind t.currentCooldowns 7).map (fun r => r.charges)) = .ok (some 1) ∧
    (2 : Int) ≠ 1 := by
  refine ⟨?_, ?_, by decide⟩
  · simp [startCooldown, finishCooldown, refreshCooldown, isOnCooldown, isAvailable,
      effectiveDuration, storeFind, storeSet, storeModify, storeErase, pushNotif, pushDiag,
      cfgTwoCharges, stateSaturated]
    rfl
  · simp [startCooldownSpecC1, finishCooldown, refreshCooldown, isOnCooldown, isAvailable,
      effectiveDuration, storeFind, storeSet, storeModify, storeErase, pushNotif, pushDiag,
      cfgTwoCharges, stateSaturated]
    rfl

/-- C1 (amended): on a saturated ability (charges equal to the configured
maximum) with a resolving duration, `startCooldown` takes the recovery path:
the `console.error` diagnostic is surfaced, ONE charge of the existing
cooldown is force-finished via `finishCooldown` (the record is removed only
when it held a single charge), and `startCooldown` is retried with the same
arguments; no error is raised, so event processing continues. -/
theorem C1_recovery_retries (cfg : Config) (s : EngineState) (id : Nat) (ov : Option Int)
    (r : CooldownRecord)
    (hr : storeFind s.currentCooldowns id = some r)
    (hsat : r.charges = cfg.getMaxCharges id)
    (hdur : effectiveDuration ov (cfg.getExpectedCooldownDuration id) ≠ 0) :
    ∃ s1 s2, finishCooldown cfg (pushDiag s (.errorDesync id)) id false = .ok s1 ∧
      startCooldown cfg s1 id ov = .ok s2 ∧
      startCooldown cfg s id ov = .ok s2 := by
  have hsat2 : ¬(cfg.getMaxCharges id > r.charges) := by
    intro hlt
    rw [hsat] at hlt
    exact lt_irrefl _ hlt
  obtain ⟨s1, hok1, _⟩ := finishCooldown_ok cfg (pushDiag s (.errorDesync id)) id r false hr
  obtain ⟨s2, hok2, _⟩ := startCooldown_spec cfg s1 id ov
  refine ⟨s1, s2, hok1, hok2, ?_⟩
  rw [startCooldown_recover cfg s id ov r s1 hdur hr hsat2 hok1]
  exact hok2

/-- C1 witness: the recovery path on the concrete saturated state. -/
theorem C1_recovery_witness :
    storeFind stateSaturated.currentCooldowns 7 =
      some { start := 0, expectedEnd := 1000, charges := 2 } ∧
    ({ start := 0, expectedEnd := 1000, charges := 2 } : CooldownRecord).charges =
      cfgTwoCharges.getMaxCharges 7 ∧
    (∃ s1 s2, finishCooldown cfgTwoCharges (pushDiag stateSaturated (.errorDesync 7)) 7 false = .ok s1 ∧
      startCooldown cfgTwoCharges s1 7 none = .ok s2 ∧
      startCooldown cfgTwoCharges stateSaturated 7 none = .ok s2) :=
  ⟨by decide, by decide,
    C1_recovery_retries cfgTwoCharges stateSaturated 7 none
      { start := 0, expectedEnd := 1000, charges := 2 } (by decide) (by decide) (by decide)⟩

/-- C2 counterexample: ability 3 has exactly 1000 ms remaining and the
reduction amount is exactly 1000 (amount = remaining, so amount ≥ remaining
holds). The claim says the cooldown is finished via `finishCooldown`; the
source's strict `cooldownRemaining < durationMs` comparison instead keeps
the record (pulled back to expire at the current instant) and returns the
amount. The ability is still on cooldown after the call. -/
theorem C2_equality_not_finished :
    cooldownRemaining stateOneCharge 3 = some 1000 ∧
    (reduceCooldown cfgOneCharge stateOneCharge 3 1000).map
      (fun p => (isOnCooldown p.1 3, p.2)) = .ok (true, some 1000) := by
  constructor
  · rfl
  · rfl

/-- C2 (amended): `reduceCooldown` returns `null` and changes nothing when
the ability is not on cooldown; when the amount strictly exceeds the
remaining time the cooldown is finished via `finishCooldown` and exactly the
remaining time is returned; when the amount is at most the remaining time,
`expectedEnd` is pulled backward by the amount and the amount is returned
unchanged. -/
theorem C2_reduce_behavior (cfg : Config) (s : EngineState) (id : Nat) (amount : Int) :
    (storeFind s.currentCooldowns id = none → reduceCooldown cfg s id amount = .ok (s, none)) ∧
    (∀ r, storeFind s.currentCooldowns id = some r →
      cooldownRemaining s id = some (r.expectedEnd - s.currentTimestamp) ∧
      (r.expectedEnd - s.currentTimestamp < amount →
        ∃ s2, finishCooldown cfg s id false = .ok s2 ∧
          reduceCooldown cfg s id amount = .ok (s2, some (r.expectedEnd - s.currentTimestamp))) ∧
      (amount ≤ r.expectedEnd - s.currentTimestamp →
        ∃ s2, reduceCooldown cfg s id amount = .ok (s2, some amount) ∧
          storeFind s2.currentCooldowns id = some { r with expectedEnd := r.expectedEnd - amount } ∧
          (∀ j, j ≠ id → storeFind s2.currentCooldowns j = storeFind s.currentCooldowns j))) := by
  constructor
  · intro h
    rw [reduceCooldown, h]
  · intro r hr
    refine ⟨by rw [cooldownRemaining, hr], ?_, ?_⟩
    · intro hlt
      obtain ⟨s2, hok, _⟩ := finishCooldown_ok cfg s id r false hr
      refine ⟨s2, hok, ?_⟩
      rw [reduceCooldown, hr]
      simp only
      rw [if_pos hlt, hok]
    · intro hge
      refine ⟨{ s with currentCooldowns := storeModify s.currentCooldowns id (fun r0 => { r0 with expectedEnd := r0.expectedEnd - amount }) }, ?_, ?_, ?_⟩
      · rw [reduceCooldown, hr]
        simp only
        rw [if_neg (not_lt.mpr hge)]
      · have hself := storeFind_storeModify_self s.currentCooldowns id (fun r0 => { r0 with expectedEnd := r0.expectedEnd - amount }) r hr
        exact hself
      · intro j hj
        exact storeFind_storeModify_ne s.currentCooldowns id j (fun r0 => { r0 with expectedEnd := r0.expectedEnd - amount }) hj

/-- C2 witness: a 400 ms reduction of a 1000 ms-remaining cooldown pulls the
end back by 400 and returns 400. -/
theorem C2_reduce_witness :
    storeFind stateOneCharge.currentCooldowns 3 =
      some { start := 0, expectedEnd := 1000, charges := 1 } ∧
    (∃ s2, reduceCooldown cfgOneCharge stateOneCharge 3 400 = .ok (s2, some 400) ∧
      storeFind s2.currentCooldowns 3 =
        some { start := 0, expectedEnd := 600, charges := 1 } ∧
      (∀ j, j ≠ 3 → storeFind s2.currentCooldowns j = storeFind stateOneCharge.currentCooldowns j)) :=
  ⟨by decide,
    ((C2_reduce_behavior cfgOneCharge stateOneCharge 3 400).2
      { start := 0, expectedEnd := 1000, charges := 1 } (by decide)).2.2 (by decide)⟩

/-- C3: over a duplicate-free store, the per-event sweep finishes exactly
the tracked cooldowns whose `expectedEnd` is strictly below the event
timestamp: a record with `timestamp ≤ expectedEnd` (equality included) is
left untouched and still on cooldown, while a record with
`expectedEnd < timestamp` (so `expectedEnd + 1` or later) has one charge
finished via the `finishCooldown` logic; untracked abilities stay
untracked. -/
theorem C3_sweep_strict (cfg : Config) (s : EngineState) (ts : Int)
    (hnd : (storeKeys s.currentCooldowns).Nodup) :
    ∃ s2, on_event cfg s (some { timestamp := ts }) = .ok s2 ∧
      (∀ id r, storeFind s.currentCooldowns id = some r →
        (ts ≤ r.expectedEnd → storeFind s2.currentCooldowns id = some r ∧ isOnCooldown s2 id = true) ∧
        (r.expectedEnd < ts → storeFind s2.currentCooldowns id = finishedRecord cfg s.currentTimestamp id r false)) ∧
      (∀ id, storeFind s.currentCooldowns id = none → storeFind s2.currentCooldowns id = none) := by
  obtain ⟨s2, hok, hts, _, hout, hin⟩ := sweep_ok cfg ts (storeKeys s.currentCooldowns) s hnd
    (fun k hk => storeFind_isSome_of_mem s.currentCooldowns k hk)
  refine ⟨s2, ?_, ?_, ?_⟩
  · rw [on_event]
    exact hok
  · intro id r hr
    have hmem := storeFind_mem _ _ _ hr
    have h1 := hin id r hmem hr
    constructor
    · intro hle
      have hval : sweptRecord cfg ts s.currentTimestamp id r = some r := by
        rw [sweptRecord, if_neg (not_lt.mpr hle)]
      rw [h1, hval]
      refine ⟨rfl, ?_⟩
      rw [isOnCooldown, h1, hval]
      rfl
    · intro hlt
      rw [h1, sweptRecord, if_pos hlt]
  · intro id hid
    rw [hout id ((storeFind_eq_none_iff _ _).mp hid)]
    exact hid

/-- C3 witness: at timestamp 1000, ability 1 (due exactly at 1000) is still
on cooldown while ability 2 (due at 500) is finished. -/
theorem C3_sweep_witness :
    (storeKeys stateTwoTracked.currentCooldowns).Nodup ∧
    (∃ s2, on_event cfgTwoCharges stateTwoTracked (some { timestamp := 1000 }) = .ok s2 ∧
      (∀ id r, storeFind stateTwoTracked.currentCooldowns id = some r →
        ((1000 : Int) ≤ r.expectedEnd → storeFind s2.currentCooldowns id = some r ∧ isOnCooldown s2 id = true) ∧
        (r.expectedEnd < 1000 → storeFind s2.currentCooldowns id = finishedRecord cfgTwoCharges stateTwoTracked.currentTimestamp id r false)) ∧
      (∀ id, storeFind stateTwoTracked.currentCooldowns id = none → storeFind s2.currentCooldowns id = none)) :=
  ⟨by decide, C3_sweep_strict cfgTwoCharges stateTwoTracked 1000 (by decide)⟩

/-- C4: with a record present, `finishCooldown` deletes it entirely when
`charges = 1` or `resetAllCharges` is set, and otherwise decrements
`charges` and re-arms the timer by running the `refreshCooldown` logic on
the decremented record. In particular, on `charges = 2` with a configured
duration the first call leaves the ability on cooldown with one charge and
a freshly reset `expectedEnd = now + duration`, and a second call removes
the record. -/
theorem C4_finish_behavior (cfg : Config) (s : EngineState) (id : Nat) (r : CooldownRecord)
    (b : Bool) (hr : storeFind s.currentCooldowns id = some r) :
    (r.charges = 1 ∨ b = true →
      ∃ s2, finishCooldown cfg s id b = .ok s2 ∧ storeFind s2.currentCooldowns id = none) ∧
    (r.charges ≠ 1 → b = false →
      ∃ s2, finishCooldown cfg s id b = .ok s2 ∧
        storeFind s2.currentCooldowns id =
          some (refreshedRecord cfg s.currentTimestamp id none { r with charges := r.charges - 1 })) ∧
    (r.charges = 2 → b = false → cfg.getExpectedCooldownDuration id ≠ 0 →
      ∃ s2 s3, finishCooldown cfg s id false = .ok s2 ∧
        isOnCooldown s2 id = true ∧
        storeFind s2.currentCooldowns id =
          some { start := r.start, expectedEnd := s.currentTimestamp + cfg.getExpectedCooldownDuration id, charges := 1 } ∧
        finishCooldown cfg s2 id false = .ok s3 ∧
        isOnCooldown s3 id = false ∧ storeFind s3.currentCooldowns id = none) := by
  refine ⟨?_, ?_, ?_⟩
  · intro hlast
    obtain ⟨s2, hok, _, _, hid, _, _⟩ := finishCooldown_ok cfg s id r b hr
    refine ⟨s2, hok, ?_⟩
    rw [hid, finishedRecord, if_pos hlast]
  · intro hne hb
    obtain ⟨s2, hok, _, _, hid, _, _⟩ := finishCooldown_ok cfg s id r b hr
    refine ⟨s2, hok, ?_⟩
    rw [hid, finishedRecord, if_neg (by simp [hne, hb])]
  · intro hc hb hcat
    obtain ⟨s2, hok, hts2, _, hid, _, _⟩ := finishCooldown_ok cfg s id r false hr
    have heff : effectiveDuration none (cfg.getExpectedCooldownDuration id) =
        cfg.getExpectedCooldownDuration id := rfl
    have hid2 : storeFind s2.currentCooldowns id =
        some { start := r.start, expectedEnd := s.currentTimestamp + cfg.getExpectedCooldownDuration id, charges := 1 } := by
      rw [hid, finishedRecord, if_neg (by simp [hc])]
      rw [refreshedRecord, heff, if_neg hcat]
      rw [Option.some.injEq, CooldownRecord.mk.injEq]
      refine ⟨rfl, rfl, ?_⟩
      simp [hc]
    obtain ⟨s3, hok3, _, _, hid3, _, _⟩ := finishCooldown_ok cfg s2 id
      { start := r.start, expectedEnd := s.currentTimestamp + cfg.getExpectedCooldownDuration id, charges := 1 }
      false hid2
    refine ⟨s2, s3, hok, ?_, hid2, hok3, ?_, ?_⟩
    · rw [isOnCooldown, hid2]
      rfl
    · rw [isOnCooldown, hid3, finishedRecord, if_pos (by simp)]
      rfl
    · rw [hid3, finishedRecord, if_pos (by simp)]

/-- C4 witness: the two-charge scenario on a concrete record. -/
theorem C4_finish_witness :
    storeFind stateSaturated.currentCooldowns 7 =
      some { start := 0, expectedEnd := 1000, charges := 2 } ∧
    (∃ s2 s3, finishCooldown cfgTwoCharges stateSaturated 7 false = .ok s2 ∧
      isOnCooldown s2 7 = true ∧
      storeFind s2.currentCooldowns 7 =
        some { start := 0, expectedEnd := 1100, charges := 1 } ∧
      finishCooldown cfgTwoCharges s2 7 false = .ok s3 ∧
      isOnCooldown s3 7 = false ∧ storeFind s3.currentCooldowns 7 = none) :=
  ⟨by decide,
    ((C4_finish_behavior cfgTwoCharges stateSaturated 7
      { start := 0, expectedEnd := 1000, charges := 2 } false (by decide)).2.2
      (by decide) rfl (by decide))⟩

/-- One `startCooldown` call on a fully saturated ability (charges equal to
the configured maximum `M ≥ 1`, catalog duration configured): the call
succeeds through the recovery path, surfaces exactly one `console.error`
desynchronization diagnostic, and leaves the tracked charges at `M`. -/
theorem startCooldown_saturated_step (cfg : Config) (s : EngineState) (id : Nat)
    (M : Nat) (r : CooldownRecord)
    (hM : cfg.getMaxCharges id = (M : Int)) (hM1 : 1 ≤ M)
    (hcat : cfg.getExpectedCooldownDuration id ≠ 0)
    (hr : storeFind s.currentCooldowns id = some r)
    (hc : r.charges = (M : Int)) :
    ∃ s2 r2, startCooldown cfg s id none = .ok s2 ∧
      storeFind s2.currentCooldowns id = some r2 ∧ r2.charges = (M : Int) ∧
      s2.diags = s.diags ++ [Diag.errorDesync id] := by
  have hdur : effectiveDuration none (cfg.getExpectedCooldownDuration id) ≠ 0 := hcat
  have hsat : ¬(cfg.getMaxCharges id > r.charges) := by
    rw [hM, hc]
    exact lt_irrefl _
  obtain ⟨s1, hok1, hts1, hne1, hid1, hnd1, hdiag1⟩ :=
    finishCooldown_ok cfg (pushDiag s (.errorDesync id)) id r false hr
  have hrec := startCooldown_recover cfg s id none r s1 hdur hr hsat hok1
  by_cases hMone : M = 1
  · have hc1 : r.charges = 1 := by
      rw [hc, hMone]
      rfl
    have hid1' : storeFind s1.currentCooldowns id = none := by
      rw [hid1, finishedRecord, if_pos (Or.inl hc1)]
    have hcreate := startCooldown_create cfg s1 id none hdur hid1'
    refine ⟨_, { start := s1.currentTimestamp, expectedEnd := s1.currentTimestamp + effectiveDuration none (cfg.getExpectedCooldownDuration id), charges := 1 }, by rw [hrec, hcreate], ?_, ?_, ?_⟩
    · rw [pushNotif_currentCooldowns]
      exact storeFind_storeSet_self s1.currentCooldowns id _
    · rw [hMone]
      rfl
    · rw [pushNotif_diags, hdiag1, if_pos (Or.inl hc1)]
      simp
  · have hcne : r.charges ≠ 1 := by
      rw [hc]
      intro hcontra
      have : M = 1 := by exact_mod_cast hcontra
      exact hMone this
    have hid1' : storeFind s1.currentCooldowns id =
        some (refreshedRecord cfg s.currentTimestamp id none { r with charges := r.charges - 1 }) := by
      rw [hid1, finishedRecord, if_neg (by simp [hcne])]
      rfl
    have hch1 : (refreshedRecord cfg s.currentTimestamp id none { r with charges := r.charges - 1 }).charges = (M : Int) - 1 := by
      rw [refreshedRecord_charges]
      simp [hc]
    have hav1 : cfg.getMaxCharges id >
        (refreshedRecord cfg s.currentTimestamp id none { r with charges := r.charges - 1 }).charges := by
      rw [hM, hch1]
      omega
    have hcharge := startCooldown_charge cfg s1 id none _ hdur hid1' hav1
    refine ⟨_, { refreshedRecord cfg s.currentTimestamp id none { r with charges := r.charges - 1 } with charges := (refreshedRecord cfg s.currentTimestamp id none { r with charges := r.charges - 1 }).charges + 1 }, by rw [hrec, hcharge], ?_, ?_, ?_⟩
    · rw [pushNotif_currentCooldowns]
      exact storeFind_storeModify_self s1.currentCooldowns id _ _ hid1'
    · show (refreshedRecord cfg s.currentTimestamp id none { r with charges := r.charges - 1 }).charges + 1 = (M : Int)
      rw [hch1]
      ring
    · rw [pushNotif_diags, hdiag1, if_neg (by simp [hcne]), if_neg hcat]
      simp

/-- Iteration helper: `startCooldown(A)` applied `N` times in immediate succession (no other
operation, no clock movement in between). -/
def iterStart (cfg : Config) (id : Nat) : Nat → EngineState → Except String EngineState
  | 0, s => .ok s
  | n + 1, s =>
    match startCooldown cfg s id none with
    | .error e => .error e
    | .ok s2 => iterStart cfg id n s2

theorem iterStart_succ (cfg : Config) (id : Nat) :
    ∀ (n : Nat) (s : EngineState), iterStart cfg id (n + 1) s =
      match iterStart cfg id n s with
      | .error e => .error e
      | .ok s2 => startCooldown cfg s2 id none := by
  intro n
  induction n with
  | zero =>
    intro s
    rcases h : startCooldown cfg s id none with e | s2
    · simp [iterStart, h]
    · simp [iterStart, h]
  | succ m ih =>
    intro s
    rcases h : startCooldown cfg s id none with e | s2
    · simp [iterStart, h]
    · simp only [iterStart, h]
      exact ih s2

/-- C5: for an ability `A` with catalog duration configured and `M ≥ 1` max
charges, starting the cooldown `N ≥ 1` times in immediate succession leaves
the record with `charges = min N M`; and the call after the `M`-th (the
`(M+1)`-th overall) runs the desynchronization-recovery path, surfacing
exactly one `console.error` diagnostic (only that path emits one). -/
theorem C5_charge_saturation (cfg : Config) (A : Nat) (M : Nat) (s0 : EngineState)
    (hM : cfg.getMaxCharges A = (M : Int)) (hM1 : 1 ≤ M)
    (hcat : cfg.getExpectedCooldownDuration A ≠ 0)
    (h0 : storeFind s0.currentCooldowns A = none) :
    (∀ N, 1 ≤ N → ∃ sN rN, iterStart cfg A N s0 = .ok sN ∧
      storeFind sN.currentCooldowns A = some rN ∧ rN.charges = ((min N M : Nat) : Int)) ∧
    (∃ sM s2, iterStart cfg A M s0 = .ok sM ∧
      startCooldown cfg sM A none = .ok s2 ∧
      s2.diags = sM.diags ++ [Diag.errorDesync A]) := by
  have hdur : effectiveDuration none (cfg.getExpectedCooldownDuration A) ≠ 0 := hcat
  have main : ∀ N, 1 ≤ N → ∃ sN rN, iterStart cfg A N s0 = .ok sN ∧
      storeFind sN.currentCooldowns A = some rN ∧ rN.charges = ((min N M : Nat) : Int) := by
    intro N
    induction N with
    | zero =>
      intro h
      omega
    | succ n ihn =>
      intro _
      by_cases hn0 : n = 0
      · subst hn0
        have hcreate := startCooldown_create cfg s0 A none hdur h0
        refine ⟨pushNotif { s0 with currentCooldowns := storeSet s0.currentCooldowns A { start := s0.currentTimestamp, expectedEnd := s0.currentTimestamp + effectiveDuration none (cfg.getExpectedCooldownDuration A), charges := 1 } } (.startcooldown A), { start := s0.currentTimestamp, expectedEnd := s0.currentTimestamp + effectiveDuration none (cfg.getExpectedCooldownDuration A), charges := 1 }, ?_, ?_, ?_⟩
        · simp only [iterStart, hcreate]
        · rw [pushNotif_currentCooldowns]
          exact storeFind_storeSet_self s0.currentCooldowns A _
        · have hmin : min (0 + 1) M = 1 := by omega
          rw [hmin]
          rfl
      · have hn1 : 1 ≤ n := by omega
        obtain ⟨sn, rn, hiter, hfind, hch⟩ := ihn hn1
        rw [iterStart_succ, hiter]
        by_cases hlt : n < M
        · have hmin : min n M = n := by omega
          have hav : cfg.getMaxCharges A > rn.charges := by
            rw [hM, hch, hmin]
            exact_mod_cast hlt
          have hcharge := startCooldown_charge cfg sn A none rn hdur hfind hav
          refine ⟨pushNotif { sn with currentCooldowns := storeModify sn.currentCooldowns A (fun r0 => { r0 with charges := r0.charges + 1 }) } (.startcooldowncharge A), { rn with charges := rn.charges + 1 }, ?_, ?_, ?_⟩
          · show startCooldown cfg sn A none = _
            exact hcharge
          · rw [pushNotif_currentCooldowns]
            exact storeFind_storeModify_self sn.currentCooldowns A _ rn hfind
          · show rn.charges + 1 = ((min (n + 1) M : Nat) : Int)
            have hmin2 : min (n + 1) M = n + 1 := by omega
            rw [hch, hmin, hmin2]
            push_cast
            ring
        · have hmin : min n M = M := by omega
          have hchM : rn.charges = (M : Int) := by rw [hch, hmin]
          obtain ⟨s2, r2, hok, hfind2, hch2, _⟩ :=
            startCooldown_saturated_step cfg sn A M rn hM hM1 hcat hfind hchM
          refine ⟨s2, r2, ?_, hfind2, ?_⟩
          · show startCooldown cfg sn A none = _
            exact hok
          · have hmin2 : min (n + 1) M = M := by omega
            rw [hch2, hmin2]
  refine ⟨main, ?_⟩
  obtain ⟨sM, rM, hiter, hfind, hch⟩ := main M hM1
  have hchM : rM.charges = (M : Int) := by
    rw [hch, min_self]
  obtain ⟨s2, r2, hok, _, _, hdiags⟩ :=
    startCooldown_saturated_step cfg sM A M rM hM hM1 hcat hfind hchM
  exact ⟨sM, s2, hiter, hok, hdiags⟩

/-- C5 witness: two charges, three calls; the third call (the `(M+1)`-th)
runs the recovery path and surfaces the diagnostic. -/
theorem C5_charge_saturation_witness :
    cfgTwoCharges.getMaxCharges 5 = ((2 : Nat) : Int) ∧
    storeFind (initState 0).currentCooldowns 5 = none ∧
    (∃ sM s2, iterStart cfgTwoCharges 5 2 (initState 0) = .ok sM ∧
      startCooldown cfgTwoCharges sM 5 none = .ok s2 ∧
      s2.diags = sM.diags ++ [Diag.errorDesync 5]) :=
  ⟨rfl, rfl,
    (C5_charge_saturation cfgTwoCharges 5 2 (initState 0) rfl (by decide) (by decide) rfl).2⟩

/-- C9: any operation sequence run from a fresh state preserves the store
invariant — keys are unique, a record exists exactly while at least one
charge is on cooldown (record presence IS the on-cooldown state), and every
tracked record holds an integer charge count between 1 and the ability's
configured maximum (all maxima being at least 1). Consequently an ability
never passed to `startCooldown` (directly or via a cast) is never on
cooldown and always reports a `null` remaining cooldown. -/
theorem C9_store_invariant (cfg : Config) (hmax : ∀ id, 1 ≤ cfg.getMaxCharges id)
    (t0 : Int) (ops : List Op) (s2 : EngineState)
    (h : run cfg (initState t0) ops = .ok s2) :
    StoreInv cfg s2 ∧
    (∀ id, (∀ op ∈ ops, op.startsAbility id = false) →
      isOnCooldown s2 id = false ∧ cooldownRemaining s2 id = none) := by
  have hinv0 : StoreInv cfg (initState t0) := by
    constructor
    · simp [initState]
    · intro id r h0
      simp [initState, storeFind] at h0
  obtain ⟨hinv2, habs⟩ := run_spec cfg hmax ops (initState t0) s2 h hinv0
  refine ⟨hinv2, ?_⟩
  intro id hops
  have habs2 := habs id hops rfl
  constructor
  · rw [isOnCooldown, habs2]
    rfl
  · rw [cooldownRemaining, habs2]

/-- C9 witness: a run without any start of ability 42 leaves it untracked. -/
theorem C9_store_invariant_witness :
    run cfgTwoCharges (initState 0) [Op.setTime 5, Op.anyEvent none, Op.reduce 3 100] =
      .ok (initState 5) ∧
    isOnCooldown (initState 5) 42 = false ∧ cooldownRemaining (initState 5) 42 = none :=
  ⟨rfl,
    (C9_store_invariant cfgTwoCharges (fun id => by show (1 : Int) ≤ 2; decide) 0
      [Op.setTime 5, Op.anyEvent none, Op.reduce 3 100] (initState 5) rfl).2 42 (by decide)⟩
